import Mathlib

/-!
# Verification of the Excel Sheet Merger core (src/App.tsx)

Shallow embedding of the merge engine, header unifier and the `handleMerge`
state transition of the single-page application in `src/App.tsx`.

Modelling choices:
* A JavaScript object (an `ExcelRow`) is an ordered association list
  `List (String × Value)` with insertion-ordered keys.  `objSet` is JS
  property assignment: updating an existing key keeps its position,
  a new key is appended.  The spread `{ [K]: v, ...row }` is
  `spreadInto [(K, v)] row`.
* A decoded workbook is the ordered list of its named sheets; a sheet is a
  list of rows (the output of `XLSX.utils.sheet_to_json` with `defval: null`,
  so cell values include an explicit `null`).
* A `File` carries its name and the result of decoding its bytes:
  `none` models `XLSX.read` throwing on malformed bytes.
* Fallible operations return `Except String`, the error string being the
  message of the thrown `Error`.
* The React component state relevant to `handleMerge` is `AppState`; the
  sequence of `setXxx` calls is modelled as a pure state transition
  (the net effect of the batched state updates once the async handler
  settles).
-/

namespace ExcelMerger

/-- A scalar cell value as produced by `sheet_to_json` with `defval: null`. -/
inductive Value where
  | str : String → Value
  | num : Int → Value
  | bool : Bool → Value
  | null : Value
deriving DecidableEq, Repr

/-- An `ExcelRow`: a JS object, i.e. an insertion-ordered association list. -/
abbrev ExcelRow : Type := List (String × Value)

/-- The keys of a row, `Object.keys row`, in insertion order. -/
def ExcelRow.keys (row : ExcelRow) : List String := row.map Prod.fst

/-- First-match association lookup: reading property `k` of a JS object. -/
def getVal : ExcelRow → String → Option Value
  | [], _ => none
  | (k', v') :: rest, k => if k' = k then some v' else getVal rest k

/-- JS property assignment `obj[k] = v`: replaces the value at an existing
key in place (keeping its insertion position), otherwise appends. -/
def objSet : ExcelRow → String → Value → ExcelRow
  | [], k, v => [(k, v)]
  | (k', v') :: rest, k, v =>
      if k' = k then (k', v) :: rest else (k', v') :: objSet rest k v

/-- Object spread `{ ...base, ...row }`: copy the own properties of `row`
into `base` in `row`'s key order, later keys overwriting earlier ones. -/
def spreadInto (base : ExcelRow) (row : ExcelRow) : ExcelRow :=
  row.foldl (fun acc kv => objSet acc kv.1 kv.2) base

/-- The constant `SOURCE_COLUMN_NAME = 'TÊN NGUỒN'` (src/App.tsx line 10). -/
def SOURCE_COLUMN_NAME : String := "TÊN NGUỒN"

/-- The provenance-tagged row `{ [SOURCE_COLUMN_NAME]: sheetName, ...row }`
pushed by both merge loops (src/App.tsx lines 31-34 and 67-70). -/
def tagRow (sheetName : String) (row : ExcelRow) : ExcelRow :=
  spreadInto [(SOURCE_COLUMN_NAME, Value.str sheetName)] row

/-- A sheet's `sheet_to_json` output: its data rows. -/
abbrev Sheet : Type := List ExcelRow

/-- A decoded workbook: `SheetNames` paired with `Sheets[name]`, in the
codec's sheet order. -/
abbrev Workbook : Type := List (String × Sheet)

instance decEqExcelRow : DecidableEq ExcelRow := inferInstance

instance decEqSheet : DecidableEq Sheet := inferInstance

instance decEqWorkbook : DecidableEq Workbook := inferInstance

/-- Reading `workbook.Sheets[sheetName]`: lookup of a sheet by name. -/
def lookupSheet : Workbook → String → Option Sheet
  | [], _ => none
  | (n, sh) :: rest, name => if n = name then some sh else lookupSheet rest name

/-- An uploaded file: its name, and the result of decoding its bytes
(`none` models `XLSX.read` throwing on malformed content). -/
structure ExcelFile where
  name : String
  decode : Option Workbook
deriving DecidableEq

/-- The message of the error thrown when a file cannot be processed
(src/App.tsx lines 40 and 76). -/
def cannotProcessMsg (fileName : String) : String :=
  "Không thể xử lý file: " ++ fileName

/-- The per-sheet body of both merge loops (src/App.tsx lines 29-36 and
65-72): if `jsonData.length > 0`, push one provenance-tagged row per input
row; otherwise push nothing. -/
def sheetRows (sheetName : String) (jsonData : List ExcelRow) : List ExcelRow :=
  if jsonData.length > 0 then jsonData.map (tagRow sheetName) else []

/-- Function `processMultipleFiles` (src/App.tsx lines 17-45): for each file in
order, decode it and append the tagged rows of every sheet in the
workbook's sheet order; the first decode failure aborts with an error
naming that file, discarding all accumulated rows. -/
def processMultipleFiles : List ExcelFile → Except String (List ExcelRow)
  | [] => .ok []
  | f :: rest =>
    match f.decode with
    | none => .error (cannotProcessMsg f.name)
    | some workbook =>
      match processMultipleFiles rest with
      | .error e => .error e
      | .ok tail =>
          .ok ((workbook.foldr (fun s acc => sheetRows s.1 s.2 ++ acc) []) ++ tail)

/-- Function `processSheetsInFile` (src/App.tsx lines 53-79): decode the single
file, then walk `selectedSheetNames` in the given order; a name with no
sheet in the workbook is skipped (`if (!worksheet) continue`), an existing
sheet contributes its tagged rows. -/
def processSheetsInFile (file : ExcelFile) (selectedSheetNames : List String) :
    Except String (List ExcelRow) :=
  match file.decode with
  | none => .error (cannotProcessMsg file.name)
  | some workbook =>
      .ok (selectedSheetNames.foldr
        (fun sheetName acc =>
          match lookupSheet workbook sheetName with
          | none => acc
          | some worksheet => sheetRows sheetName worksheet ++ acc) [])

/-- The step `headerSet.add key` for a JS `Set` materialised as an insertion-ordered
list: adding an element already present is a no-op, a new element is
appended. -/
def addKey (acc : List String) (k : String) : List String :=
  if k ∈ acc then acc else acc ++ [k]

/-- Function `getHeadersFromData` (src/App.tsx lines 87-99): empty data gives `[]`;
otherwise collect every row's keys into an insertion-ordered set, then if
`SOURCE_COLUMN_NAME` is present move it to the front, keeping the relative
order of the rest. -/
def getHeadersFromData (data : List ExcelRow) : List String :=
  if data.length = 0 then []
  else
    let headers := data.foldl (fun acc row => (ExcelRow.keys row).foldl addKey acc) []
    if SOURCE_COLUMN_NAME ∈ headers then
      SOURCE_COLUMN_NAME :: headers.filter (fun h => h ≠ SOURCE_COLUMN_NAME)
    else headers

/-- The two merge modes (src/App.tsx line 234). -/
inductive MergeMode where
  | files
  | sheets
deriving DecidableEq

/-- The component state consulted and written by `handleMerge`
(src/App.tsx lines 237-242). -/
structure AppState where
  mergeMode : MergeMode
  files : List ExcelFile
  singleFileSheets : List (String × Bool)
  mergedData : Option (List ExcelRow)
  isLoading : Bool
  error : Option String
deriving DecidableEq

/-- Message of `setError('Vui lòng chọn file.')` (src/App.tsx line 302). -/
def noFileMsg : String := "Vui lòng chọn file."

/-- Message of `setError('Vui lòng chọn ít nhất một sheet để gộp.')` (line 316). -/
def noSheetSelectedMsg : String := "Vui lòng chọn ít nhất một sheet để gộp."

/-- Message of `setError('Không tìm thấy dữ liệu trong các file/sheet đã chọn.')`
(line 324). -/
def noDataMsg : String := "Không tìm thấy dữ liệu trong các file/sheet đã chọn."

/-- Function `handleMerge` (src/App.tsx lines 300-334) as a state transition: the
net effect of its state updates once the handler settles.  An empty file
list sets an error and returns before anything else; otherwise loading is
set, error and merged data are cleared, the mode's merge runs, and the
result (data, empty-result notice, or thrown message) lands in the state
with loading ended by the `finally` block. -/
def handleMerge (s : AppState) : AppState :=
  match s.files with
  | [] => { s with error := some noFileMsg }
  | f0 :: _ =>
    let cleared : AppState := { s with isLoading := true, error := none, mergedData := none }
    match s.mergeMode with
    | .files =>
      match processMultipleFiles cleared.files with
      | .error msg => { cleared with error := some msg, isLoading := false }
      | .ok data =>
          if data.length = 0 then
            { cleared with error := some noDataMsg, isLoading := false }
          else
            { cleared with mergedData := some data, isLoading := false }
    | .sheets =>
      let selectedSheets := (cleared.singleFileSheets.filter (fun sh => sh.2)).map (fun sh => sh.1)
      if selectedSheets.length = 0 then
        { cleared with error := some noSheetSelectedMsg, isLoading := false }
      else
        match processSheetsInFile f0 selectedSheets with
        | .error msg => { cleared with error := some msg, isLoading := false }
        | .ok data =>
            if data.length = 0 then
              { cleared with error := some noDataMsg, isLoading := false }
            else
              { cleared with mergedData := some data, isLoading := false }

/-! ## Basic lemmas about the row and spread model -/

theorem getVal_objSet_self (r : ExcelRow) (k : String) (v : Value) :
    getVal (objSet r k v) k = some v := by
  induction r with
  | nil => simp [objSet, getVal]
  | cons kv rest ih =>
      by_cases h : kv.1 = k
      · simp [objSet, h, getVal]
      · simp [objSet, h, getVal, ih]

theorem getVal_objSet_ne (r : ExcelRow) {k' k : String} (h : k' ≠ k) (v : Value) :
    getVal (objSet r k' v) k = getVal r k := by
  induction r with
  | nil => simp [objSet, getVal, h]
  | cons kv rest ih =>
      obtain ⟨a, b⟩ := kv
      by_cases hk : a = k'
      · subst hk
        simp [objSet, getVal, h]
      · have hstep : objSet ((a, b) :: rest) k' v = (a, b) :: objSet rest k' v := by
          simp [objSet, hk]
        rw [hstep]
        by_cases hk2 : a = k
        · simp [getVal, hk2]
        · simp [getVal, hk2, ih]

theorem spreadInto_cons (base : ExcelRow) (kv : String × Value) (rest : ExcelRow) :
    spreadInto base (kv :: rest) = spreadInto (objSet base kv.1 kv.2) rest := rfl

theorem getVal_spreadInto_of_not_mem (row : ExcelRow) {k : String}
    (h : k ∉ row.keys) : ∀ base : ExcelRow, getVal (spreadInto base row) k = getVal base k := by
  induction row with
  | nil => intro base; rfl
  | cons kv rest ih =>
      intro base
      simp only [ExcelRow.keys, List.map_cons, List.mem_cons, not_or] at h
      rw [spreadInto_cons, ih (by simpa [ExcelRow.keys] using h.2),
        getVal_objSet_ne base (fun he => h.1 he.symm)]

theorem getVal_spreadInto_of_getVal (row : ExcelRow) {k : String} {v : Value}
    (hnd : row.keys.Nodup) (hv : getVal row k = some v) :
    ∀ base : ExcelRow, getVal (spreadInto base row) k = some v := by
  induction row with
  | nil => simp [getVal] at hv
  | cons kv rest ih =>
      intro base
      simp only [ExcelRow.keys, List.map_cons, List.nodup_cons] at hnd
      by_cases hk : kv.1 = k
      · have hrest : k ∉ ExcelRow.keys rest := by
          simpa [ExcelRow.keys, hk] using hnd.1
        have hv' : v = kv.2 := by
          simp [getVal, hk] at hv
          exact hv.symm
        rw [spreadInto_cons, getVal_spreadInto_of_not_mem rest hrest, hv', ← hk]
        exact getVal_objSet_self base kv.1 kv.2
      · have hv' : getVal rest k = some v := by
          simpa [getVal, hk] using hv
        exact ih hnd.2 hv' (objSet base kv.1 kv.2)

theorem getVal_isSome_objSet (r : ExcelRow) (k' k : String) (w : Value)
    (h : (getVal r k).isSome) : (getVal (objSet r k' w) k).isSome := by
  by_cases hk : k' = k
  · rw [hk, getVal_objSet_self]; rfl
  · rwa [getVal_objSet_ne r hk]

theorem getVal_isSome_spreadInto (row : ExcelRow) (k : String) :
    ∀ base : ExcelRow, (getVal base k).isSome → (getVal (spreadInto base row) k).isSome := by
  induction row with
  | nil => intro base h; exact h
  | cons kv rest ih =>
      intro base h
      rw [spreadInto_cons]
      exact ih (objSet base kv.1 kv.2) (getVal_isSome_objSet base kv.1 k kv.2 h)

theorem getVal_tagRow_isSome (s : String) (row : ExcelRow) :
    (getVal (tagRow s row) SOURCE_COLUMN_NAME).isSome :=
  getVal_isSome_spreadInto row SOURCE_COLUMN_NAME _ (by simp [getVal])

theorem getVal_tagRow_of_not_mem (s : String) (row : ExcelRow)
    (h : SOURCE_COLUMN_NAME ∉ row.keys) :
    getVal (tagRow s row) SOURCE_COLUMN_NAME = some (Value.str s) := by
  rw [tagRow, getVal_spreadInto_of_not_mem row h]
  simp [getVal]

/-! ## Flattening characterisation of the merge loops -/

theorem sheetRows_eq_map (sheetName : String) (jsonData : List ExcelRow) :
    sheetRows sheetName jsonData = jsonData.map (tagRow sheetName) := by
  unfold sheetRows
  split
  · rfl
  · rename_i h
    have : jsonData = [] := by
      cases jsonData with
      | nil => rfl
      | cons a l => simp at h
    simp [this]

/-- The provenance-tagged rows contributed by one decoded workbook, in
sheet order. -/
def workbookRows (wb : Workbook) : List ExcelRow :=
  wb.flatMap fun s => s.2.map (tagRow s.1)

/-- The full cross-file merge result when every file decodes, in
(file order) × (sheet order) × (row order). -/
def mergedFilesRows (files : List ExcelFile) : List ExcelRow :=
  files.flatMap fun f => workbookRows (f.decode.getD [])

theorem foldr_sheetRows_eq_workbookRows (wb : Workbook) :
    wb.foldr (fun s acc => sheetRows s.1 s.2 ++ acc) [] = workbookRows wb := by
  induction wb with
  | nil => rfl
  | cons s rest ih =>
      rw [List.foldr_cons, ih, sheetRows_eq_map]
      simp [workbookRows]

theorem processMultipleFiles_ok (files : List ExcelFile)
    (h : ∀ f ∈ files, f.decode ≠ none) :
    processMultipleFiles files = .ok (mergedFilesRows files) := by
  induction files with
  | nil => rfl
  | cons f rest ih =>
      obtain ⟨wb, hwb⟩ : ∃ wb, f.decode = some wb := by
        cases hd : f.decode with
        | none => exact absurd hd (h f (List.mem_cons_self f rest))
        | some wb => exact ⟨wb, rfl⟩
      have hrest := ih (fun g hg => h g (List.mem_cons_of_mem f hg))
      simp [processMultipleFiles, hwb, hrest, mergedFilesRows,
        foldr_sheetRows_eq_workbookRows, workbookRows]

theorem workbookRows_cons (s : String × Sheet) (rest : Workbook) :
    workbookRows (s :: rest) = s.2.map (tagRow s.1) ++ workbookRows rest := by
  simp [workbookRows]

theorem mergedFilesRows_cons (f : ExcelFile) (rest : List ExcelFile) :
    mergedFilesRows (f :: rest) =
      workbookRows (f.decode.getD []) ++ mergedFilesRows rest := by
  simp [mergedFilesRows]

theorem length_workbookRows (wb : Workbook) :
    (workbookRows wb).length = (wb.map fun s => s.2.length).sum := by
  induction wb with
  | nil => rfl
  | cons s rest ih =>
      rw [workbookRows_cons]
      simp [ih]

/-- Scenario A, file F1: sheets Jan `[{A:1,B:2}]` and Feb `[{A:3}]`. -/
def fileF1 : ExcelFile :=
  ⟨"F1.xlsx", some [("Jan", [[("A", Value.num 1), ("B", Value.num 2)]]),
                    ("Feb", [[("A", Value.num 3)]])]⟩

/-- Scenario A, file F2: sheet Mar `[{B:5,C:6}]`. -/
def fileF2 : ExcelFile :=
  ⟨"F2.xlsx", some [("Mar", [[("B", Value.num 5), ("C", Value.num 6)]])]⟩

/-- C1: when every file decodes, the cross-file merge returns exactly the
concatenation, in (file order) × (sheet order) × (row order), of each
sheet's provenance-tagged rows, and its row count is the sum over all
files and sheets of that sheet's row count (so empty sheets and files
contribute nothing, not even a provenance-only row). -/
theorem processMultipleFiles_flatten_and_count (files : List ExcelFile)
    (h : ∀ f ∈ files, f.decode ≠ none) :
    processMultipleFiles files = .ok (mergedFilesRows files) ∧
    (mergedFilesRows files).length =
      (files.map fun f => ((f.decode.getD []).map fun s => s.2.length).sum).sum := by
  refine ⟨processMultipleFiles_ok files h, ?_⟩
  induction files with
  | nil => rfl
  | cons f rest ih =>
      have hrest := ih (fun g hg => h g (List.mem_cons_of_mem f hg))
      rw [mergedFilesRows_cons]
      simp [length_workbookRows, hrest]

/-- Witness for C1 on scenario A: both files decode, and the theorem
applies to the concrete pair `[fileF1, fileF2]`. -/
theorem processMultipleFiles_flatten_and_count_witness :
    (∀ f ∈ [fileF1, fileF2], f.decode ≠ none) ∧
    (processMultipleFiles [fileF1, fileF2] = .ok (mergedFilesRows [fileF1, fileF2]) ∧
     (mergedFilesRows [fileF1, fileF2]).length =
       (([fileF1, fileF2] : List ExcelFile).map
         fun f => ((f.decode.getD []).map fun s => s.2.length).sum).sum) :=
  ⟨by decide, processMultipleFiles_flatten_and_count [fileF1, fileF2] (by decide)⟩

/-! ## Header unifier -/

/-- Spec-level reformulation of the header scan: all keys seen across the
rows of `data`, in first-appearance order. -/
def firstSeenKeys (data : List ExcelRow) : List String :=
  (data.flatMap ExcelRow.keys).foldl addKey []

/-- Spec-level reordering: the Provenance Column, if present, is moved to
index 0 without otherwise disturbing the relative order of the rest. -/
def provenanceFirst (headers : List String) : List String :=
  if SOURCE_COLUMN_NAME ∈ headers then
    SOURCE_COLUMN_NAME :: headers.filter (fun h => h ≠ SOURCE_COLUMN_NAME)
  else headers

theorem headerScan_eq (data : List ExcelRow) :
    ∀ init : List String,
      data.foldl (fun acc row => (ExcelRow.keys row).foldl addKey acc) init =
        (data.flatMap ExcelRow.keys).foldl addKey init := by
  induction data with
  | nil => intro init; rfl
  | cons row rest ih =>
      intro init
      rw [List.foldl_cons, ih, List.flatMap_cons, List.foldl_append]

theorem mem_foldl_addKey (ks : List String) :
    ∀ (acc : List String) (k : String),
      k ∈ ks.foldl addKey acc ↔ k ∈ acc ∨ k ∈ ks := by
  induction ks with
  | nil => intro acc k; simp
  | cons k0 rest ih =>
      intro acc k
      rw [List.foldl_cons, ih]
      by_cases h0 : k0 ∈ acc
      · simp only [addKey, if_pos h0]
        constructor
        · rintro (h | h)
          · exact Or.inl h
          · exact Or.inr (List.mem_cons_of_mem k0 h)
        · rintro (h | h)
          · exact Or.inl h
          · rcases List.mem_cons.mp h with rfl | h
            · exact Or.inl h0
            · exact Or.inr h
      · simp only [addKey, if_neg h0, List.mem_append, List.mem_singleton, List.mem_cons]
        tauto

theorem nodup_foldl_addKey (ks : List String) :
    ∀ acc : List String, acc.Nodup → (ks.foldl addKey acc).Nodup := by
  induction ks with
  | nil => intro acc h; exact h
  | cons k0 rest ih =>
      intro acc h
      rw [List.foldl_cons]
      refine ih (addKey acc k0) ?_
      by_cases h0 : k0 ∈ acc
      · simpa [addKey, if_pos h0] using h
      · simpa [addKey, if_neg h0, List.nodup_append] using ⟨h, h0⟩

theorem mem_provenanceFirst (headers : List String) (k : String) :
    k ∈ provenanceFirst headers ↔ k ∈ headers := by
  unfold provenanceFirst
  split
  · rename_i hs
    by_cases hk : k = SOURCE_COLUMN_NAME
    · subst hk; simp [hs]
    · simp [hk, List.mem_filter]
  · rfl

theorem nodup_provenanceFirst (headers : List String) (h : headers.Nodup) :
    (provenanceFirst headers).Nodup := by
  unfold provenanceFirst
  split
  · refine List.nodup_cons.mpr ⟨?_, List.Nodup.filter _ h⟩
    intro hmem
    have := (List.mem_filter.mp hmem).2
    simp at this
  · exact h

/-- C2: `getHeadersFromData` returns a duplicate-free sequence containing
exactly the keys present in some row, equal to the first-appearance key
scan with the Provenance Column (when present) moved to index 0, and the
empty input yields the empty sequence. -/
theorem getHeadersFromData_spec (data : List ExcelRow) :
    (getHeadersFromData data).Nodup ∧
    (∀ k, k ∈ getHeadersFromData data ↔ ∃ row ∈ data, k ∈ ExcelRow.keys row) ∧
    getHeadersFromData data = provenanceFirst (firstSeenKeys data) ∧
    getHeadersFromData ([] : List ExcelRow) = [] := by
  have heq : getHeadersFromData data = provenanceFirst (firstSeenKeys data) := by
    cases data with
    | nil => rfl
    | cons row rest =>
        unfold getHeadersFromData provenanceFirst firstSeenKeys
        rw [if_neg (by simp)]
        rw [headerScan_eq (row :: rest) []]
  have hnd : (firstSeenKeys data).Nodup :=
    nodup_foldl_addKey (data.flatMap ExcelRow.keys) [] List.nodup_nil
  refine ⟨?_, ?_, heq, rfl⟩
  · rw [heq]
    exact nodup_provenanceFirst _ hnd
  · intro k
    rw [heq, mem_provenanceFirst, firstSeenKeys,
      mem_foldl_addKey (data.flatMap ExcelRow.keys) [] k]
    simp [ExcelRow.keys, List.mem_flatMap]

/-! ## Provenance tag precedence (C3) -/

/-- C3: the per-sheet loop body shared by both merge modes maps `tagRow`
(provenance key applied first, then spread with the source row) over the
sheet; when a source row itself contains a column named exactly
`SOURCE_COLUMN_NAME`, the source row's own value overwrites the injected
tag, and otherwise the tag is the sheet name. -/
theorem tagRow_collision_precedence :
    (∀ sheetName jsonData,
      sheetRows sheetName jsonData = jsonData.map (tagRow sheetName)) ∧
    (∀ (s : String) (row : ExcelRow) (v : Value),
      (ExcelRow.keys row).Nodup → getVal row SOURCE_COLUMN_NAME = some v →
      getVal (tagRow s row) SOURCE_COLUMN_NAME = some v) ∧
    (∀ (s : String) (row : ExcelRow),
      SOURCE_COLUMN_NAME ∉ ExcelRow.keys row →
      getVal (tagRow s row) SOURCE_COLUMN_NAME = some (Value.str s)) :=
  ⟨sheetRows_eq_map,
   fun _ row _ hnd hv => getVal_spreadInto_of_getVal row hnd hv _,
   fun s row h => getVal_tagRow_of_not_mem s row h⟩

/-- Witness for C3: a concrete row owning a `TÊN NGUỒN` column; its own
value survives tagging with sheet name "Jan". -/
theorem tagRow_collision_precedence_witness :
    ((ExcelRow.keys [(SOURCE_COLUMN_NAME, Value.str "own")]).Nodup ∧
     getVal [(SOURCE_COLUMN_NAME, Value.str "own")] SOURCE_COLUMN_NAME =
       some (Value.str "own")) ∧
    getVal (tagRow "Jan" [(SOURCE_COLUMN_NAME, Value.str "own")]) SOURCE_COLUMN_NAME =
      some (Value.str "own") :=
  ⟨⟨by decide, by decide⟩,
   tagRow_collision_precedence.2.1 "Jan" [(SOURCE_COLUMN_NAME, Value.str "own")]
     (Value.str "own") (by decide) (by decide)⟩

/-! ## Provenance non-null invariant (C4) -/

/-- A file whose single sheet has one row whose own `TÊN NGUỒN` column is
null (as `sheet_to_json` with `defval: null` produces for an empty cell
under a header literally named `TÊN NGUỒN`). -/
def collidingFile : ExcelFile :=
  ⟨"collide.xlsx", some [("Jan", [[(SOURCE_COLUMN_NAME, Value.null)]])]⟩

/-- Whether a merged row carries a non-null value under the Provenance
Column. -/
def hasNonNullProvenance (row : ExcelRow) : Bool :=
  match getVal row SOURCE_COLUMN_NAME with
  | some Value.null => false
  | some _ => true
  | none => false

/-- C4 counterexample: merging `collidingFile` succeeds and its single
output row's Provenance Column value is null, so not every row of a
merged table has a non-null value for the Provenance Column. -/
theorem provenance_nonnull_counterexample :
    processMultipleFiles [collidingFile] = .ok [[(SOURCE_COLUMN_NAME, Value.null)]] ∧
    ¬ (∀ row ∈ [[(SOURCE_COLUMN_NAME, Value.null)]], hasNonNullProvenance row = true) := by
  constructor
  · rfl
  · decide

theorem getVal_isSome_of_mem_keys (row : ExcelRow) {k : String}
    (h : k ∈ ExcelRow.keys row) : ∃ v, getVal row k = some v := by
  induction row with
  | nil => simp [ExcelRow.keys] at h
  | cons kv rest ih =>
      by_cases hk : kv.1 = k
      · exact ⟨kv.2, by simp [getVal, hk]⟩
      · have : k ∈ ExcelRow.keys rest := by
          rcases List.mem_cons.mp h with h1 | h1
          · exact absurd h1.symm hk
          · exact h1
        obtain ⟨v, hv⟩ := ih this
        exact ⟨v, by simp [getVal, hk, hv]⟩

theorem hasNonNullProvenance_tagRow (s : String) (srow : ExcelRow)
    (hnd : (ExcelRow.keys srow).Nodup)
    (hnn : getVal srow SOURCE_COLUMN_NAME ≠ some Value.null) :
    hasNonNullProvenance (tagRow s srow) = true := by
  by_cases hmem : SOURCE_COLUMN_NAME ∈ ExcelRow.keys srow
  · obtain ⟨v, hv⟩ := getVal_isSome_of_mem_keys srow hmem
    have hval := getVal_spreadInto_of_getVal srow hnd hv
      [(SOURCE_COLUMN_NAME, Value.str s)]
    unfold hasNonNullProvenance
    rw [tagRow] at *
    rw [hval]
    cases v with
    | null => exact absurd (hv.trans rfl) hnn
    | str t => rfl
    | num n => rfl
    | bool b => rfl
  · unfold hasNonNullProvenance
    rw [getVal_tagRow_of_not_mem s srow hmem]

/-- Every row of a successful cross-file merge comes from tagging some
source row of some sheet of some decoded file. -/
theorem mem_processMultipleFiles :
    ∀ {files : List ExcelFile} {out : List ExcelRow},
      processMultipleFiles files = .ok out →
      ∀ {row}, row ∈ out →
        ∃ f ∈ files, ∃ wb, f.decode = some wb ∧
          ∃ sh ∈ wb, ∃ srow ∈ sh.2, row = tagRow sh.1 srow := by
  intro files
  induction files with
  | nil =>
      intro out hok row hrow
      simp [processMultipleFiles] at hok
      subst hok
      simp at hrow
  | cons f rest ih =>
      intro out hok row hrow
      cases hd : f.decode with
      | none => simp [processMultipleFiles, hd] at hok
      | some wb =>
          cases hrec : processMultipleFiles rest with
          | error e => simp [processMultipleFiles, hd, hrec] at hok
          | ok tail =>
              have hout : out = workbookRows wb ++ tail := by
                have := hok
                simp [processMultipleFiles, hd, hrec,
                  foldr_sheetRows_eq_workbookRows] at this
                exact this.symm
              subst hout
              rcases List.mem_append.mp hrow with hl | hr
              · rcases List.mem_flatMap.mp hl with ⟨sh, hsh, hrowsh⟩
                rcases List.mem_map.mp hrowsh with ⟨srow, hsrow, hrw⟩
                exact ⟨f, List.mem_cons_self f rest, wb, hd, sh, hsh, srow, hsrow, hrw.symm⟩
              · rcases ih hrec hr with ⟨g, hg, wb', hgd, sh, hsh, srow, hsrow, hrw⟩
                exact ⟨g, List.mem_cons_of_mem f hg, wb', hgd, sh, hsh, srow, hsrow, hrw⟩

/-- Every row of a successful cross-sheet merge comes from tagging some
source row of a selected sheet found in the decoded workbook. -/
theorem mem_processSheetsInFile :
    ∀ {file : ExcelFile} {wb : Workbook} {selected : List String} {out : List ExcelRow},
      file.decode = some wb →
      processSheetsInFile file selected = .ok out →
      ∀ {row}, row ∈ out →
        ∃ name ∈ selected, ∃ sheet, lookupSheet wb name = some sheet ∧
          ∃ srow ∈ sheet, row = tagRow name srow := by
  intro file wb selected out hdec hok row hrow
  have hout : out = selected.foldr
      (fun sheetName acc =>
        match lookupSheet wb sheetName with
        | none => acc
        | some worksheet => sheetRows sheetName worksheet ++ acc) [] := by
    have := hok
    simp [processSheetsInFile, hdec] at this
    exact this.symm
  subst hout
  clear hok hdec
  induction selected with
  | nil => simp at hrow
  | cons name rest ih =>
      rw [List.foldr_cons] at hrow
      cases hl : lookupSheet wb name with
      | none =>
          rw [hl] at hrow
          rcases ih hrow with ⟨n, hn, sheet, hs, srow, hsrow, hrw⟩
          exact ⟨n, List.mem_cons_of_mem name hn, sheet, hs, srow, hsrow, hrw⟩
      | some ws =>
          rw [hl] at hrow
          rcases List.mem_append.mp hrow with h1 | h1
          · rw [sheetRows_eq_map] at h1
            rcases List.mem_map.mp h1 with ⟨srow, hsrow, hrw⟩
            exact ⟨name, List.mem_cons_self name rest, ws, hl, srow, hsrow, hrw.symm⟩
          · rcases ih h1 with ⟨n, hn, sheet, hs, srow, hsrow, hrw⟩
            exact ⟨n, List.mem_cons_of_mem name hn, sheet, hs, srow, hsrow, hrw⟩

theorem lookupSheet_mem : ∀ {wb : Workbook} {name : String} {sheet : Sheet},
    lookupSheet wb name = some sheet → (name, sheet) ∈ wb := by
  intro wb
  induction wb with
  | nil => intro name sheet h; simp [lookupSheet] at h
  | cons p rest ih =>
      intro name sheet h
      by_cases hp : p.1 = name
      · have : p.2 = sheet := by simpa [lookupSheet, hp] using h
        subst hp
        rw [List.mem_cons]
        left
        rw [← this]
      · have := by simpa [lookupSheet, hp] using h
        exact List.mem_cons_of_mem p (ih this)

/-- C4 amended: every row of a successful merge (either mode) carries the
Provenance Column key; and its value is non-null provided no source row
maps a column named exactly `SOURCE_COLUMN_NAME` to null. -/
theorem provenance_amended :
    (∀ files out, processMultipleFiles files = .ok out →
      ∀ row ∈ out, (getVal row SOURCE_COLUMN_NAME).isSome = true) ∧
    (∀ file selected out, processSheetsInFile file selected = .ok out →
      ∀ row ∈ out, (getVal row SOURCE_COLUMN_NAME).isSome = true) ∧
    (∀ files out, processMultipleFiles files = .ok out →
      (∀ f ∈ files, ∀ sh ∈ f.decode.getD [], ∀ srow ∈ sh.2,
        (ExcelRow.keys srow).Nodup ∧
          getVal srow SOURCE_COLUMN_NAME ≠ some Value.null) →
      ∀ row ∈ out, hasNonNullProvenance row = true) ∧
    (∀ file wb selected out, file.decode = some wb →
      processSheetsInFile file selected = .ok out →
      (∀ sh ∈ wb, ∀ srow ∈ sh.2,
        (ExcelRow.keys srow).Nodup ∧
          getVal srow SOURCE_COLUMN_NAME ≠ some Value.null) →
      ∀ row ∈ out, hasNonNullProvenance row = true) := by
  refine ⟨?_, ?_, ?_, ?_⟩
  · intro files out hok row hrow
    rcases mem_processMultipleFiles hok hrow with ⟨f, hf, wb, hd, sh, hsh, srow, hsrow, rfl⟩
    exact getVal_tagRow_isSome sh.1 srow
  · intro file selected out hok row hrow
    cases hdec : file.decode with
    | none => simp [processSheetsInFile, hdec] at hok
    | some wb =>
        rcases mem_processSheetsInFile hdec hok hrow with ⟨n, hn, sheet, hs, srow, hsrow, rfl⟩
        exact getVal_tagRow_isSome n srow
  · intro files out hok hsrc row hrow
    rcases mem_processMultipleFiles hok hrow with ⟨f, hf, wb, hd, sh, hsh, srow, hsrow, rfl⟩
    have hsh' : sh ∈ f.decode.getD [] := by rw [hd]; exact hsh
    obtain ⟨hnd, hnn⟩ := hsrc f hf sh hsh' srow hsrow
    exact hasNonNullProvenance_tagRow sh.1 srow hnd hnn
  · intro file wb selected out hdec hok hsrc row hrow
    rcases mem_processSheetsInFile hdec hok hrow with ⟨n, hn, sheet, hs, srow, hsrow, rfl⟩
    obtain ⟨hnd, hnn⟩ := hsrc (n, sheet) (lookupSheet_mem hs) srow hsrow
    exact hasNonNullProvenance_tagRow n srow hnd hnn

/-- Witness for the amended C4 on scenario A's `fileF1`: its two merged
rows both carry a non-null provenance value. -/
theorem provenance_amended_witness :
    ∀ row ∈ [[(SOURCE_COLUMN_NAME, Value.str "Jan"), ("A", Value.num 1), ("B", Value.num 2)],
             [(SOURCE_COLUMN_NAME, Value.str "Feb"), ("A", Value.num 3)]],
      hasNonNullProvenance row = true :=
  provenance_amended.2.2.1 [fileF1]
    [[(SOURCE_COLUMN_NAME, Value.str "Jan"), ("A", Value.num 1), ("B", Value.num 2)],
     [(SOURCE_COLUMN_NAME, Value.str "Feb"), ("A", Value.num 3)]]
    (by rfl) (by decide)

/-! ## Cross-sheet iteration order and silent skipping (C5) -/

theorem foldrSheets_eq_flatMap (wb : Workbook) :
    ∀ selected : List String,
      selected.foldr
        (fun sheetName acc =>
          match lookupSheet wb sheetName with
          | none => acc
          | some worksheet => sheetRows sheetName worksheet ++ acc) [] =
      selected.flatMap fun name =>
        match lookupSheet wb name with
        | none => []
        | some sheet => sheet.map (tagRow name) := by
  intro selected
  induction selected with
  | nil => rfl
  | cons name rest ih =>
      rw [List.foldr_cons, ih, List.flatMap_cons]
      cases hl : lookupSheet wb name with
      | none => simp
      | some ws => simp [sheetRows_eq_map]

/-- C5: the cross-sheet merge walks `selectedSheetNames` in the
caller-supplied order — its output is the concatenation, per selected
name in that order, of the tagged rows of the sheet looked up under that
name — and a selected name with no sheet in the decoded workbook is
silently skipped: it contributes no rows and raises no error. -/
theorem processSheetsInFile_order_and_skip (file : ExcelFile) (wb : Workbook)
    (hdec : file.decode = some wb) :
    (∀ selected : List String,
      processSheetsInFile file selected =
        .ok (selected.flatMap fun name =>
          match lookupSheet wb name with
          | none => []
          | some sheet => sheet.map (tagRow name))) ∧
    (∀ (name : String) (rest : List String), lookupSheet wb name = none →
      processSheetsInFile file (name :: rest) = processSheetsInFile file rest) := by
  constructor
  · intro selected
    simp [processSheetsInFile, hdec, foldrSheets_eq_flatMap]
  · intro name rest hl
    simp [processSheetsInFile, hdec, List.foldr_cons, hl]

/-- Scenario B workbook: native sheet order Jan, Feb, Mar. -/
def navWorkbook : Workbook :=
  [("Jan", [[("J", Value.num 1)]]),
   ("Feb", [[("F", Value.num 2)]]),
   ("Mar", [[("M", Value.num 3)]])]

/-- Scenario B file wrapping `navWorkbook`. -/
def navFile : ExcelFile := ⟨"nav.xlsx", some navWorkbook⟩

/-- Witness for C5: selecting `["Mar", "Jan", "Nope"]` against a file
whose native order is Jan, Feb, Mar yields Mar's rows first, then Jan's,
with the nonexistent "Nope" skipped without error. -/
theorem processSheetsInFile_order_and_skip_witness :
    navFile.decode = some navWorkbook ∧
    processSheetsInFile navFile ["Mar", "Jan", "Nope"] =
      .ok ((["Mar", "Jan", "Nope"] : List String).flatMap fun name =>
        match lookupSheet navWorkbook name with
        | none => []
        | some sheet => sheet.map (tagRow name)) ∧
    ((["Mar", "Jan", "Nope"] : List String).flatMap fun name =>
        match lookupSheet navWorkbook name with
        | none => []
        | some sheet => sheet.map (tagRow name)) =
      [[(SOURCE_COLUMN_NAME, Value.str "Mar"), ("M", Value.num 3)],
       [(SOURCE_COLUMN_NAME, Value.str "Jan"), ("J", Value.num 1)]] :=
  ⟨rfl,
   (processSheetsInFile_order_and_skip navFile navWorkbook rfl).1 ["Mar", "Jan", "Nope"],
   by rfl⟩

/-! ## Cross-file abort on decode failure (C6) -/

/-- C6: if one file fails to decode, the whole cross-file merge returns a
single error naming that file — no rows are returned, rows accumulated
from earlier files are discarded, and the result does not depend on the
files after the failing one (they are never decoded). -/
theorem processMultipleFiles_abort (good : List ExcelFile) (bad : ExcelFile)
    (rest : List ExcelFile) (hgood : ∀ f ∈ good, f.decode ≠ none)
    (hbad : bad.decode = none) :
    processMultipleFiles (good ++ bad :: rest) = .error (cannotProcessMsg bad.name) := by
  induction good with
  | nil => simp [processMultipleFiles, hbad]
  | cons f gs ih =>
      obtain ⟨wb, hwb⟩ : ∃ wb, f.decode = some wb := by
        cases hd : f.decode with
        | none => exact absurd hd (hgood f (List.mem_cons_self f gs))
        | some wb => exact ⟨wb, rfl⟩
      have hgs := ih (fun g hg => hgood g (List.mem_cons_of_mem f hg))
      simp [processMultipleFiles, hwb, hgs]

/-- A file whose bytes cannot be parsed. -/
def corruptFile : ExcelFile := ⟨"corrupt.xls", none⟩

/-- Witness for C6: a good file, then a corrupt one, then another good
one: the merge aborts with the error naming `corrupt.xls`. -/
theorem processMultipleFiles_abort_witness :
    (∀ f ∈ [fileF1], f.decode ≠ none) ∧ corruptFile.decode = none ∧
    processMultipleFiles ([fileF1] ++ corruptFile :: [fileF2]) =
      .error (cannotProcessMsg corruptFile.name) :=
  ⟨by decide, rfl,
   processMultipleFiles_abort [fileF1] corruptFile [fileF2] (by decide) rfl⟩

/-! ## `handleMerge` state transitions (C7-C10) -/

/-- C7: a cross-sheet merge attempted with zero selected sheets is stopped
by the local precondition check: the empty-selection message is set, the
file list and the decoded sheet-name list are untouched, and since the
statement holds for every state (hence every file contents), neither merge
function runs and no decode is consulted. -/
theorem handleMerge_empty_selection (s : AppState) (f0 : ExcelFile) (fs : List ExcelFile)
    (hmode : s.mergeMode = .sheets) (hfiles : s.files = f0 :: fs)
    (hsel : s.singleFileSheets.filter (fun sh => sh.2) = []) :
    handleMerge s =
      { s with isLoading := false, error := some noSheetSelectedMsg, mergedData := none } := by
  simp [handleMerge, hfiles, hmode, hsel]

/-- Witness for C7: a two-sheet state with both sheets deselected; the
previous merged table is cleared but files and sheet list survive. -/
theorem handleMerge_empty_selection_witness :
    (let s7 : AppState :=
      ⟨.sheets, [fileF1], [("Jan", false), ("Feb", false)],
        some [[("X", Value.num 0)]], false, none⟩
    handleMerge s7 =
      { s7 with isLoading := false, error := some noSheetSelectedMsg, mergedData := none }) :=
  handleMerge_empty_selection _ fileF1 [] rfl rfl rfl

/-- C8: with a non-empty file list the previous merged table is cleared
before the merge is attempted, so whenever the invocation ends with an
error set, the session holds no merged table — the previous successful
table is not preserved. -/
theorem handleMerge_no_table_on_failure (s : AppState) (hfiles : s.files ≠ [])
    (herr : (handleMerge s).error.isSome = true) :
    (handleMerge s).mergedData = none := by
  cases hf : s.files with
  | nil => exact absurd hf hfiles
  | cons f0 fs =>
      revert herr
      cases hm : s.mergeMode with
      | files =>
          cases hp : processMultipleFiles s.files with
          | error e => simp [handleMerge, hf, hm, hf ▸ hp]
          | ok data =>
              by_cases hlen : data.length = 0
              · simp [handleMerge, hf, hm, hf ▸ hp, hlen]
              · simp [handleMerge, hf, hm, hf ▸ hp, hlen]
      | sheets =>
          by_cases hsel :
              ((s.singleFileSheets.filter (fun sh => sh.2)).map (fun sh => sh.1)).length = 0
          · simp only [handleMerge, hf, hm]
            rw [if_pos hsel]
            intro _
            rfl
          · cases hp : processSheetsInFile f0
                ((s.singleFileSheets.filter (fun sh => sh.2)).map (fun sh => sh.1)) with
            | error e =>
                simp only [handleMerge, hf, hm, hp]
                rw [if_neg hsel]
                intro _
                rfl
            | ok data =>
                by_cases hlen : data.length = 0
                · simp only [handleMerge, hf, hm, hp]
                  rw [if_neg hsel, if_pos hlen]
                  intro _
                  rfl
                · simp only [handleMerge, hf, hm, hp]
                  rw [if_neg hsel, if_neg hlen]
                  intro h
                  simp at h

/-- Witness for C8: a state holding a previous merged table whose only
file is corrupt; the failed merge leaves no merged table behind. -/
theorem handleMerge_no_table_on_failure_witness :
    (let s8 : AppState :=
      ⟨.files, [corruptFile], [], some [[("X", Value.num 1)]], false, none⟩
    s8.files ≠ [] ∧ (handleMerge s8).error.isSome = true ∧
      (handleMerge s8).mergedData = none) :=
  ⟨by decide, by decide,
   handleMerge_no_table_on_failure
     ⟨.files, [corruptFile], [], some [[("X", Value.num 1)]], false, none⟩
     (by decide) (by decide)⟩

/-- C9: a merge that completes without error but yields zero rows sets the
empty-result notice and leaves no merged table, in either mode. -/
theorem handleMerge_empty_result (s : AppState) (f0 : ExcelFile) (fs : List ExcelFile)
    (hfiles : s.files = f0 :: fs) :
    (s.mergeMode = .files → processMultipleFiles s.files = .ok [] →
      handleMerge s =
        { s with isLoading := false, error := some noDataMsg, mergedData := none }) ∧
    (s.mergeMode = .sheets →
      ((s.singleFileSheets.filter (fun sh => sh.2)).map (fun sh => sh.1)) ≠ [] →
      processSheetsInFile f0
          ((s.singleFileSheets.filter (fun sh => sh.2)).map (fun sh => sh.1)) = .ok [] →
      handleMerge s =
        { s with isLoading := false, error := some noDataMsg, mergedData := none }) := by
  constructor
  · intro hm hok
    simp [handleMerge, hfiles, hm, hfiles ▸ hok]
  · intro hm hsel hok
    have hcond :
        ¬(((s.singleFileSheets.filter (fun sh => sh.2)).map (fun sh => sh.1)).length = 0) :=
      fun h0 => hsel (List.length_eq_zero.mp h0)
    simp only [handleMerge, hfiles, hm, hok]
    rw [if_neg hcond]
    simp [hfiles]

/-- A file whose single sheet has zero data rows (scenario C). -/
def emptySheetFile : ExcelFile := ⟨"empty.xlsx", some [("Sheet1", [])]⟩

/-- Witness for C9 on scenario C: merging the lone empty-sheet file sets
the empty-result notice and no merged table. -/
theorem handleMerge_empty_result_witness :
    (let s9 : AppState :=
      ⟨.files, [emptySheetFile], [], some [[("X", Value.num 1)]], false, none⟩
    handleMerge s9 =
      { s9 with isLoading := false, error := some noDataMsg, mergedData := none }) :=
  (handleMerge_empty_result _ emptySheetFile [] rfl).1 rfl rfl

/-- C10: invoking merge with an empty file list only sets the
error message and returns: the previously stored merged table (and every
other field) is left unchanged, and no decode happens — an exception to
the clear-then-attempt behaviour. -/
theorem handleMerge_no_files (s : AppState) (h : s.files = []) :
    handleMerge s = { s with error := some noFileMsg } := by
  simp [handleMerge, h]

/-- Witness for C10: with no files selected, the previous merged table
survives the rejected merge unchanged. -/
theorem handleMerge_no_files_witness :
    (let s10 : AppState :=
      ⟨.files, [], [], some [[("K", Value.str "kept")]], false, none⟩
    handleMerge s10 = { s10 with error := some noFileMsg } ∧
      (handleMerge s10).mergedData = some [[("K", Value.str "kept")]]) :=
  ⟨handleMerge_no_files _ rfl, by decide⟩

end ExcelMerger
